import Mathlib

/-!
Verification of the TempMailX disposable-inbox client (`src/main.py`).

The file shallowly embeds the pure logic of the program: the OTP regex
extraction (`extract_otp`), password masking (`safe_print_account`),
environment-integer parsing (`get_env_int`), domain choice, the
provisioning/token error flow of `main`, and the inbox poll loop.  Remote
HTTP calls are modelled as oracles (functions/`Except` values supplied as
parameters); `random.choice` is modelled by an arbitrary index reduced
modulo the list length.  Character classes are the ASCII fragments of
Python's `\d`, `\w` and `str.strip` whitespace.
-/

namespace TempMailX

/-! ## Character classes (ASCII fragment of Python's `\d`, `\w`, whitespace) -/

/-- ASCII decimal digit, Python regex `\d` (ASCII fragment). -/
def isDigitC (c : Char) : Bool := decide (48 ≤ c.toNat ∧ c.toNat ≤ 57)

/-- Python regex word character `\w` (ASCII fragment): `[A-Za-z0-9_]`. -/
def isWordC (c : Char) : Bool :=
  isDigitC c || decide (65 ≤ c.toNat ∧ c.toNat ≤ 90) ||
    decide (97 ≤ c.toNat ∧ c.toNat ≤ 122) || decide (c.toNat = 95)

/-- Whitespace stripped by Python's `int` (ASCII fragment of `str.strip`). -/
def isWsC (c : Char) : Bool :=
  decide (c.toNat = 32 ∨ c.toNat = 9 ∨ c.toNat = 10 ∨ c.toNat = 13 ∨
    c.toNat = 11 ∨ c.toNat = 12)

/-! ## `extract_otp` (main.py lines 79-87)

`re.search(r"\b(\d{4,8})\b", text)`: the regex engine tries each start
position left to right; at a position it checks the word boundary, then the
greedy `\d{4,8}` tries 8 digits down to 4, then the closing `\b`. -/

/-- Is the optional preceding character a word character (`false` at the
string start)? -/
def wordOpt : Option Char → Bool
  | none => false
  | some c => isWordC c

/-- Is the first character of the remaining text a word character (`false`
at the string end)? -/
def wordHead : List Char → Bool
  | [] => false
  | c :: _ => isWordC c

/-- Python `\b`: a word boundary holds between `prev` and the rest `l` iff
exactly one side is a word character. -/
def atBoundary (prev : Option Char) (l : List Char) : Bool :=
  wordOpt prev != wordHead l

/-- The closing `\b` of the pattern, checked right after one or more digits
(digits are word characters, so the boundary holds iff the next character
is absent or not a word character). -/
def bAfterDigits : List Char → Bool
  | [] => true
  | c :: _ => !isWordC c

/-- Match `\d{k}\b` against the front of `l`, returning the consumed
digits. -/
def tryLen : Nat → List Char → Option (List Char)
  | 0, l => if bAfterDigits l then some [] else none
  | _ + 1, [] => none
  | k + 1, c :: cs => if isDigitC c then (tryLen k cs).map (fun r => c :: r) else none

/-- First-some alternative, the regex engine's backtracking order. -/
def oalt : Option (List Char) → Option (List Char) → Option (List Char)
  | some r, _ => some r
  | none, y => y

/-- Backtracking of the greedy `\d{4,8}\b`: lengths 8 down to 4. -/
def srchChain (l : List Char) : Option (List Char) :=
  oalt (tryLen 8 l) (oalt (tryLen 7 l) (oalt (tryLen 6 l) (oalt (tryLen 5 l) (tryLen 4 l))))

/-- Attempt of the full pattern `\b(\d{4,8})\b` at one position: `prev` is
the character before the position (`none` at the string start). -/
def matchAt (prev : Option Char) (l : List Char) : Option (List Char) :=
  if atBoundary prev l then srchChain l else none

/-- `re.search`: try the pattern at each position, left to right. -/
def reSearch (prev : Option Char) : List Char → Option (List Char)
  | [] => matchAt prev []
  | c :: cs =>
    match matchAt prev (c :: cs) with
    | some r => some r
    | none => reSearch (some c) cs

/-- `extract_otp` (main.py lines 79-87): `None` for falsy text, otherwise
the first `\b(\d{4,8})\b` match. -/
def extract_otp (s : String) : Option String :=
  if s.data = [] then none
  else (reSearch none s.data).map (fun r => String.mk r)

/-! ## Spec-side reading of the claim for `extract_otp`

Modelled from the spec's words: "the first run of 4 to 8 digits bounded by
word boundaries, or none if absent". -/

/-- The maximal digit run at the front of the text. -/
def takeDigits : List Char → List Char
  | [] => []
  | c :: cs => if isDigitC c then c :: takeDigits cs else []

/-- Does a standalone (word-boundary-delimited) run of 4 to 8 digits start
here?  `prev` is the preceding character, `none` at the string start. -/
def standaloneAt (prev : Option Char) (l : List Char) : Bool :=
  match l with
  | [] => false
  | c :: _ =>
    isDigitC c && !wordOpt prev &&
      (decide (4 ≤ (takeDigits l).length) && decide ((takeDigits l).length ≤ 8) &&
        bAfterDigits (l.drop (takeDigits l).length))

/-- The first standalone run of 4 to 8 digits, scanning left to right. -/
def firstBoundedRun (prev : Option Char) : List Char → Option (List Char)
  | [] => none
  | c :: cs =>
    if standaloneAt prev (c :: cs) then some (takeDigits (c :: cs))
    else firstBoundedRun (some c) cs

/-- The extraction the spec describes: the first standalone 4-8 digit run of
the text, or none. -/
def specExtract (s : String) : Option String :=
  (firstBoundedRun none s.data).map (fun r => String.mk r)

/-! ## Password masking (main.py lines 90-94)

`safe_print_account` prints the password as
`password[:2] + "*" * max(0, len(password) - 4) + password[-2:]` when the
length is at least 4, and as the fixed string `"***"` otherwise. -/

/-- The masked password value printed by `safe_print_account` (main.py line
92), on the character list of the password. -/
def maskPwd (p : List Char) : List Char :=
  if 4 ≤ p.length then
    p.take 2 ++ List.replicate (max 0 (p.length - 4)) '*' ++ p.drop (p.length - 2)
  else [ '*', '*', '*' ]

/-! ## `get_env_int` (main.py lines 19-23)

`int(os.getenv(name, str(default)))`, with `ValueError` caught and mapped
to the default.  Python's `int` on a string strips whitespace, accepts an
optional sign, and digits with single underscores between them. -/

/-- Strip leading and trailing whitespace (Python `int`'s stripping,
ASCII fragment). -/
def trimWs (l : List Char) : List Char :=
  ((l.dropWhile isWsC).reverse.dropWhile isWsC).reverse

/-- Parse the remaining digits of an integer literal after at least one
digit was read into `acc`; a single underscore may separate two digits. -/
def parseDigs (acc : Nat) : List Char → Option Nat
  | [] => some acc
  | c :: rest =>
    if isDigitC c then parseDigs (acc * 10 + (c.toNat - 48)) rest
    else if c = '_' then
      match rest with
      | [] => none
      | d :: rest2 =>
        if isDigitC d then parseDigs (acc * 10 + (d.toNat - 48)) rest2 else none
    else none

/-- Parse a nonempty digit sequence (with single underscores between
digits). -/
def parseNat : List Char → Option Nat
  | [] => none
  | c :: rest => if isDigitC c then parseDigs (c.toNat - 48) rest else none

/-- Python `int(s)` on a string (ASCII fragment): strip whitespace, optional
sign, digit sequence; `none` models a raised `ValueError`. -/
def pyIntList (l : List Char) : Option Int :=
  match trimWs l with
  | [] => none
  | c :: rest =>
    if c = '-' then (parseNat rest).map (fun n => -(n : Int))
    else if c = '+' then (parseNat rest).map (fun n => (n : Int))
    else (parseNat (c :: rest)).map (fun n => (n : Int))

/-- Python `int` applied to a string. -/
def pyIntOfString (s : String) : Option Int := pyIntList s.data

/-- Decimal digits of a natural number, most significant first (the digits
of Python's `str` on a nonnegative integer). -/
def natDigits (n : Nat) : List Char :=
  if h : n < 10 then [Char.ofNat (48 + n)]
  else natDigits (n / 10) ++ [Char.ofNat (48 + n % 10)]
decreasing_by exact Nat.div_lt_self (by omega) (by omega)

/-- Python `str` on an integer: optional minus sign and decimal digits. -/
def intRepr (i : Int) : String :=
  if i < 0 then String.mk ('-' :: natDigits (-i).toNat) else String.mk (natDigits i.toNat)

/-- `get_env_int` (main.py lines 19-23): `int(os.getenv(name, str(default)))`
with `ValueError` mapped to the default.  The environment is the oracle
`env`; an unset variable is `none`. -/
def get_env_int (env : String → Option String) (name : String) (default : Int) : Int :=
  match pyIntOfString ((env name).getD (intRepr default)) with
  | some v => v
  | none => default

/-! ## Provisioning and token flow (main.py lines 46-54, 57-67, 110-150)

Remote responses are oracles: an `Except` value is the outcome of the one
HTTP request the wrapped call makes (`Except.error` models a raised
`requests.HTTPError` from `raise_for_status`). -/

/-- An HTTP error raised by `raise_for_status` (status code). -/
structure HErr where
  code : Nat
deriving DecidableEq

/-- The pipeline stage an HTTP error propagated from. -/
inductive Stage
  | domainsStage
  | tokenStage
deriving DecidableEq

/-- `list_domains` (main.py lines 46-54): keep the truthy `domain` field of
each `hydra:member` entry.  `raw` holds each entry's `domain` field
(`none` when absent). -/
def list_domains (raw : List (Option String)) : List String :=
  raw.filterMap (fun d =>
    match d with
    | none => none
    | some s => if s = "" then none else some s)

/-- The domain choice of `main` (main.py lines 115-122): a supplied desired
domain is used when available, otherwise a random available domain
(`random.choice` modelled by index `k` modulo the length). -/
def chooseDomain (wanted : String) (domains : List String) (k : Nat) : String :=
  if wanted ≠ "" then
    if wanted ∉ domains then domains.getD (k % domains.length) "" else wanted
  else domains.getD (k % domains.length) ""

/-- Why `get_token` raised (main.py lines 62-67). -/
inductive TokenErr
  | http (e : HErr)
  | missingToken
deriving DecidableEq

/-- `get_token` (main.py lines 62-67): propagate a request error, raise
`RuntimeError` when the response's `token` field is falsy (absent or the
empty string), otherwise return it.  `resp` is the oracle for the
`POST /token` response's `token` field. -/
def get_token (resp : Except HErr (Option String)) : Except TokenErr String :=
  match resp with
  | .error e => .error (.http e)
  | .ok tok =>
    match tok with
    | none => .error .missingToken
    | some s => if s = "" then .error .missingToken else .ok s

/-- Console lines of the provisioning part of `main` that the claims are
about. -/
inductive LogEv
  | domainFallbackWarn
  | accountCreated
  | createFailedWarn (e : HErr)
  | tokenReceived
deriving DecidableEq

/-- How a run of `main` terminates abnormally during provisioning. -/
inductive MainErr
  | http (s : Stage) (e : HErr)
  | noDomains
  | tokenMissing
deriving DecidableEq

/-- Oracles for the three remote calls of the provisioning part of `main`:
the domain listing, the account creation, and the token exchange (for the
token response, only its `token` field). -/
structure ProvisionEnv where
  domainsResp : Except HErr (List (Option String))
  createResp : Except HErr Unit
  tokenResp : Except HErr (Option String)

/-- The outcome of the token step inside `main`: `get_token`'s result, with
its exceptions propagating out of the run. -/
def tokenOutcome (resp : Except HErr (Option String)) : Except MainErr String :=
  match get_token resp with
  | .ok t => .ok t
  | .error (.http e) => .error (.http .tokenStage e)
  | .error .missingToken => .error .tokenMissing

/-- Provisioning flow of `main` (main.py lines 110-150): list domains (fatal
on error or empty), choose a domain, create an account when no credentials
were supplied (`HTTPError` swallowed with a warning), then exchange for a
token (fatal on error).  Returns the log events and the outcome.  (The
chosen domain itself, `chooseDomain`, only feeds the generated address
string, which no claim observes.) -/
def provisionRun (env : ProvisionEnv) (wanted : String) (haveCreds : Bool) :
    List LogEv × Except MainErr String :=
  match env.domainsResp with
  | .error e => ([], .error (.http .domainsStage e))
  | .ok raw =>
    let domains := list_domains raw
    if domains = [] then ([], .error .noDomains)
    else
      let warnD : List LogEv :=
        if wanted ≠ "" ∧ wanted ∉ domains then [.domainFallbackWarn] else []
      let createLogs : List LogEv :=
        if haveCreds then []
        else
          match env.createResp with
          | .ok _ => [.accountCreated]
          | .error e => [.createFailedWarn e]
      match tokenOutcome env.tokenResp with
      | .ok t => (warnD ++ createLogs ++ [.tokenReceived], .ok t)
      | .error e => (warnD ++ createLogs, .error e)

/-! ## The poll loop (main.py lines 155-198)

Messages and full bodies are oracles (`InboxEnv`); the loop's console
output is a list of events.  Display-only summary fields (`subject`,
`from`) are omitted: they do not influence control flow. -/

/-- A message-list entry: its `id` field (`none` when absent) and its
`intro` snippet (`m.get("intro", "")`). -/
structure Msg where
  id : Option String
  intro : String
deriving DecidableEq

/-- A full message: its `text` and `html` fields (`none` when absent). -/
structure Detail where
  text : Option String
  html : Option String
deriving DecidableEq

/-- Oracles for the poll loop: the message list returned by
`fetch_messages` on poll `i`, and the full message returned by
`read_message` for an id. -/
structure InboxEnv where
  fetch : Nat → List Msg
  detail : String → Detail

/-- Console events of the poll loop. -/
inductive Ev
  | newMsg (id : String)
  | readBody (id : String)
  | otpFound (code : String)
  | fallbackBody (excerpt : String)
  | htmlNote
  | waiting (i : Nat)
  | sleepEv (secs : Nat)
deriving DecidableEq

/-- Filter of main.py line 161: `m.get("id") and m.get("id") not in
seen_ids` (a truthy id not yet seen). -/
def newMsgPred (seen : List String) (m : Msg) : Bool :=
  match m.id with
  | none => false
  | some s => !(s == "") && !(decide (s ∈ seen))

/-- OTP extraction and report for one message (main.py lines 181-186):
body text first, intro second, fallback excerpt when both fail. -/
def otpEvents (text intr : String) : List Ev :=
  match extract_otp text with
  | some c => [Ev.otpFound c]
  | none =>
    match extract_otp intr with
    | some c => [Ev.otpFound c]
    | none => [Ev.fallbackBody (if text = "" then "(no text body)" else text.take 300)]

/-- Processing of one new message (main.py lines 162-190): print it, fetch
the full body, extract and report the OTP, note an HTML body. -/
def processMsg (env : InboxEnv) (m : Msg) : List Ev :=
  let mid := m.id.getD ""
  let d := env.detail mid
  let text := d.text.getD ""
  let html := d.html.getD ""
  [Ev.newMsg mid, Ev.readBody mid] ++ otpEvents text m.intro ++
    (if html = "" then [] else [Ev.htmlNote])

/-- The inner `for` loop of main.py lines 162-190: process each new message
in list order, adding its id to the seen set. -/
def processNew (env : InboxEnv) (seen : List String) : List Msg → List Ev × List String
  | [] => ([], seen)
  | m :: ms =>
    let mid := m.id.getD ""
    let evs := processMsg env m
    let rest := processNew env (mid :: seen) ms
    (evs ++ rest.1, rest.2)

/-- One poll-loop iteration (main.py lines 157-198): fetch the list, process
the unseen messages (or print a waiting line when the list is empty), then
sleep the fixed interval. -/
def pollIter (env : InboxEnv) (secs : Nat) (seen : List String) (i : Nat) :
    List Ev × List String :=
  let msgs := env.fetch i
  if msgs = [] then ([Ev.waiting i, Ev.sleepEv secs], seen)
  else
    let res := processNew env seen (msgs.filter (newMsgPred seen))
    (res.1 ++ [Ev.sleepEv secs], res.2)

/-- The remaining `n` iterations of the poll loop, starting at index `i`
with the given seen set. -/
def runFrom (env : InboxEnv) (secs : Nat) : Nat → Nat → List String → List Ev
  | 0, _, _ => []
  | n + 1, i, seen =>
    let res := pollIter env secs seen i
    res.1 ++ runFrom env secs n (i + 1) res.2

/-- The whole poll loop (main.py lines 155-198): `maxPolls` iterations from
an empty seen set. -/
def runPolls (env : InboxEnv) (secs maxPolls : Nat) : List Ev :=
  runFrom env secs maxPolls 0 []

/-- The ids the loop reports (the `New Message` print of main.py line
171). -/
def reportedIds (evs : List Ev) : List String :=
  evs.filterMap (fun e => match e with | Ev.newMsg s => some s | _ => none)

/-- The ids whose full body the loop fetches (`read_message`, main.py line
177). -/
def readIds (evs : List Ev) : List String :=
  evs.filterMap (fun e => match e with | Ev.readBody s => some s | _ => none)

/-- The durations of the loop's sleep events (main.py line 198). -/
def sleepDurations (evs : List Ev) : List Nat :=
  evs.filterMap (fun e => match e with | Ev.sleepEv s => some s | _ => none)

/-- The truthy ids of a message list (nonempty `id` fields). -/
def truthyIds (msgs : List Msg) : List String :=
  msgs.filterMap (fun m =>
    match m.id with
    | none => none
    | some s => if s = "" then none else some s)

/-! ## Lemmas about the regex model -/

theorem isWordC_of_digit {c : Char} (h : isDigitC c = true) : isWordC c = true := by
  simp [isWordC, h]

theorem tryLen_none_of_lt : ∀ (k : Nat) (l : List Char),
    k < (takeDigits l).length → tryLen k l = none := by
  intro k
  induction k with
  | zero =>
    intro l h
    cases l with
    | nil => simp [takeDigits] at h
    | cons c cs =>
      by_cases hd : isDigitC c = true
      · simp [tryLen, bAfterDigits, isWordC_of_digit hd]
      · simp [takeDigits, hd] at h
  | succ k ih =>
    intro l h
    cases l with
    | nil => simp [takeDigits] at h
    | cons c cs =>
      by_cases hd : isDigitC c = true
      · have hlt : k < (takeDigits cs).length := by
          simp [takeDigits, hd] at h
          omega
        simp [tryLen, hd, ih cs hlt]
      · simp [takeDigits, hd] at h

theorem tryLen_none_of_gt : ∀ (l : List Char) (k : Nat),
    (takeDigits l).length < k → tryLen k l = none := by
  intro l
  induction l with
  | nil =>
    intro k h
    cases k with
    | zero => simp [takeDigits] at h
    | succ k => simp [tryLen]
  | cons c cs ih =>
    intro k h
    cases k with
    | zero => exact absurd h (Nat.not_lt_zero _)
    | succ k =>
      by_cases hd : isDigitC c = true
      · have hlt : (takeDigits cs).length < k := by
          simp [takeDigits, hd] at h
          omega
        simp [tryLen, hd, ih k hlt]
      · simp [tryLen, hd]

theorem tryLen_run : ∀ l : List Char,
    tryLen (takeDigits l).length l =
      if bAfterDigits (l.drop (takeDigits l).length) then some (takeDigits l) else none := by
  intro l
  induction l with
  | nil => simp [takeDigits, tryLen, bAfterDigits]
  | cons c cs ih =>
    by_cases hd : isDigitC c = true
    · have ht : takeDigits (c :: cs) = c :: takeDigits cs := by simp [takeDigits, hd]
      rw [ht, List.length_cons]
      simp only [tryLen, hd, if_true, List.drop_succ_cons]
      rw [ih]
      simp [apply_ite]
    · have ht : takeDigits (c :: cs) = [] := by simp [takeDigits, hd]
      rw [ht]
      simp [tryLen]

theorem srchChain_eq (l : List Char) (h4 : 4 ≤ (takeDigits l).length)
    (h8 : (takeDigits l).length ≤ 8) :
    srchChain l =
      if bAfterDigits (l.drop (takeDigits l).length) then some (takeDigits l) else none := by
  have hc := tryLen_run l
  obtain ⟨n, hn⟩ : ∃ n, (takeDigits l).length = n := ⟨_, rfl⟩
  rw [hn] at h4 h8 hc ⊢
  interval_cases n
  · have e8 := tryLen_none_of_gt l 8 (by omega)
    have e7 := tryLen_none_of_gt l 7 (by omega)
    have e6 := tryLen_none_of_gt l 6 (by omega)
    have e5 := tryLen_none_of_gt l 5 (by omega)
    simp [srchChain, oalt, e8, e7, e6, e5, hc]
  · have e8 := tryLen_none_of_gt l 8 (by omega)
    have e7 := tryLen_none_of_gt l 7 (by omega)
    have e6 := tryLen_none_of_gt l 6 (by omega)
    have e4 := tryLen_none_of_lt 4 l (by omega)
    by_cases hb : bAfterDigits (l.drop 5) = true
    · simp [srchChain, oalt, e8, e7, e6, e4, hc, hb]
    · simp [srchChain, oalt, e8, e7, e6, e4, hc, hb]
  · have e8 := tryLen_none_of_gt l 8 (by omega)
    have e7 := tryLen_none_of_gt l 7 (by omega)
    have e5 := tryLen_none_of_lt 5 l (by omega)
    have e4 := tryLen_none_of_lt 4 l (by omega)
    by_cases hb : bAfterDigits (l.drop 6) = true
    · simp [srchChain, oalt, e8, e7, e5, e4, hc, hb]
    · simp [srchChain, oalt, e8, e7, e5, e4, hc, hb]
  · have e8 := tryLen_none_of_gt l 8 (by omega)
    have e6 := tryLen_none_of_lt 6 l (by omega)
    have e5 := tryLen_none_of_lt 5 l (by omega)
    have e4 := tryLen_none_of_lt 4 l (by omega)
    by_cases hb : bAfterDigits (l.drop 7) = true
    · simp [srchChain, oalt, e8, e6, e5, e4, hc, hb]
    · simp [srchChain, oalt, e8, e6, e5, e4, hc, hb]
  · have e7 := tryLen_none_of_lt 7 l (by omega)
    have e6 := tryLen_none_of_lt 6 l (by omega)
    have e5 := tryLen_none_of_lt 5 l (by omega)
    have e4 := tryLen_none_of_lt 4 l (by omega)
    by_cases hb : bAfterDigits (l.drop 8) = true
    · simp [srchChain, oalt, e7, e6, e5, e4, hc, hb]
    · simp [srchChain, oalt, e7, e6, e5, e4, hc, hb]

theorem matchAt_eq (prev : Option Char) (l : List Char) :
    matchAt prev l = if standaloneAt prev l then some (takeDigits l) else none := by
  cases l with
  | nil =>
    have hs : srchChain [] = none := by decide
    simp [matchAt, standaloneAt, hs]
  | cons c cs =>
    by_cases hd : isDigitC c = true
    · have hw : isWordC c = true := isWordC_of_digit hd
      by_cases hp : wordOpt prev = true
      · have hb : atBoundary prev (c :: cs) = false := by
          simp [atBoundary, wordHead, hw, hp]
        simp [matchAt, hb, standaloneAt, hp]
      · have hp' : wordOpt prev = false := by
          simpa using hp
        have hb : atBoundary prev (c :: cs) = true := by
          simp [atBoundary, wordHead, hw, hp']
        by_cases h4 : 4 ≤ (takeDigits (c :: cs)).length
        · by_cases h8 : (takeDigits (c :: cs)).length ≤ 8
          · rw [matchAt]
            simp only [hb, if_true]
            rw [srchChain_eq _ h4 h8]
            simp [standaloneAt, hd, hp', h4, h8]
          · have e8 := tryLen_none_of_lt 8 (c :: cs) (by omega)
            have e7 := tryLen_none_of_lt 7 (c :: cs) (by omega)
            have e6 := tryLen_none_of_lt 6 (c :: cs) (by omega)
            have e5 := tryLen_none_of_lt 5 (c :: cs) (by omega)
            have e4 := tryLen_none_of_lt 4 (c :: cs) (by omega)
            simp [matchAt, hb, srchChain, oalt, e8, e7, e6, e5, e4, standaloneAt, h8]
        · have e8 := tryLen_none_of_gt (c :: cs) 8 (by omega)
          have e7 := tryLen_none_of_gt (c :: cs) 7 (by omega)
          have e6 := tryLen_none_of_gt (c :: cs) 6 (by omega)
          have e5 := tryLen_none_of_gt (c :: cs) 5 (by omega)
          have e4 := tryLen_none_of_gt (c :: cs) 4 (by omega)
          simp [matchAt, hb, srchChain, oalt, e8, e7, e6, e5, e4, standaloneAt, h4]
    · have h0 : (takeDigits (c :: cs)).length = 0 := by simp [takeDigits, hd]
      have e8 := tryLen_none_of_gt (c :: cs) 8 (by omega)
      have e7 := tryLen_none_of_gt (c :: cs) 7 (by omega)
      have e6 := tryLen_none_of_gt (c :: cs) 6 (by omega)
      have e5 := tryLen_none_of_gt (c :: cs) 5 (by omega)
      have e4 := tryLen_none_of_gt (c :: cs) 4 (by omega)
      simp [matchAt, srchChain, oalt, e8, e7, e6, e5, e4, standaloneAt, hd]

theorem reSearch_eq : ∀ (l : List Char) (prev : Option Char),
    reSearch prev l = firstBoundedRun prev l := by
  intro l
  induction l with
  | nil =>
    intro prev
    simp [reSearch, firstBoundedRun, matchAt_eq, standaloneAt]
  | cons c cs ih =>
    intro prev
    simp only [reSearch, matchAt_eq]
    by_cases hs : standaloneAt prev (c :: cs) = true
    · simp [hs, firstBoundedRun]
    · simp [hs, firstBoundedRun, ih]

/-- Claim C1: for every input string, `extract_otp` returns the first run of
4 to 8 digits bounded by word boundaries (`specExtract`, transcribed from
the spec), returns `"482913"` on the spec's example, and returns `none` on
the empty string. -/
theorem C1_extract_otp_first_bounded_run :
    (∀ s : String, extract_otp s = specExtract s) ∧
      extract_otp "Your code is 482913, expires soon" = some "482913" ∧
      extract_otp "" = none := by
  refine ⟨?_, by decide, by decide⟩
  intro s
  unfold extract_otp specExtract
  by_cases h : s.data = []
  · simp [h, firstBoundedRun]
  · simp [h, reSearch_eq]

/-! ## Password masking -/

/-- Claim C3: for a password of length at least 4 the mask printed by
`safe_print_account` keeps the length, preserves the first two and the last
two characters, and fills the middle with the mask character; for a shorter
password the printed value is the fixed string `"***"`, identical for all
short passwords. -/
theorem C3_mask_password :
    ∀ p : List Char,
      (4 ≤ p.length →
        (maskPwd p).length = p.length ∧
        (maskPwd p).take 2 = p.take 2 ∧
        (maskPwd p).drop (p.length - 2) = p.drop (p.length - 2) ∧
        ((maskPwd p).drop 2).take (p.length - 4) = List.replicate (p.length - 4) '*') ∧
      (p.length < 4 →
        maskPwd p = [ '*', '*', '*' ] ∧
        ∀ q : List Char, q.length < 4 → maskPwd q = maskPwd p) := by
  intro p
  constructor
  · intro h
    have hm : maskPwd p =
        p.take 2 ++ List.replicate (p.length - 4) '*' ++ p.drop (p.length - 2) := by
      simp [maskPwd, h]
    have l1 : (p.take 2).length = 2 := by
      simp [List.length_take]
      omega
    have l2 : (List.replicate (p.length - 4) '*').length = p.length - 4 := by simp
    refine ⟨?_, ?_, ?_, ?_⟩
    · rw [hm]
      simp [List.length_append, l1, l2, List.length_drop]
      omega
    · rw [hm, List.append_assoc]
      rw [List.take_append_eq_append_take, l1]
      simp [List.take_take]
    · rw [hm]
      rw [List.drop_append_eq_append_drop]
      have l12 : (p.take 2 ++ List.replicate (p.length - 4) '*').length = p.length - 2 := by
        simp [List.length_append, l1, l2]
        omega
      rw [List.drop_eq_nil_of_le (by omega), l12]
      simp
    · rw [hm, List.append_assoc]
      rw [List.drop_append_eq_append_drop, l1]
      rw [List.drop_eq_nil_of_le (by omega)]
      simp only [Nat.sub_self, List.drop_zero, List.nil_append]
      rw [List.take_append_eq_append_take, l2]
      simp [List.take_replicate]
  · intro h
    have h4 : ¬ 4 ≤ p.length := by omega
    refine ⟨by simp [maskPwd, h4], ?_⟩
    intro q hq
    have hq4 : ¬ 4 ≤ q.length := by omega
    simp [maskPwd, h4, hq4]

/-- Witness for C3: the mask of the 8-character password `"secret12"`
preserves ends and masks the middle; the mask of `"ab"` is the fixed
`"***"`. -/
theorem C3_mask_password_witness :
    ((maskPwd [ 's', 'e', 'c', 'r', 'e', 't', '1', '2' ]).length =
        [ 's', 'e', 'c', 'r', 'e', 't', '1', '2' ].length ∧
      (maskPwd [ 's', 'e', 'c', 'r', 'e', 't', '1', '2' ]).take 2 =
        [ 's', 'e', 'c', 'r', 'e', 't', '1', '2' ].take 2 ∧
      (maskPwd [ 's', 'e', 'c', 'r', 'e', 't', '1', '2' ]).drop
          ([ 's', 'e', 'c', 'r', 'e', 't', '1', '2' ].length - 2) =
        [ 's', 'e', 'c', 'r', 'e', 't', '1', '2' ].drop
          ([ 's', 'e', 'c', 'r', 'e', 't', '1', '2' ].length - 2) ∧
      ((maskPwd [ 's', 'e', 'c', 'r', 'e', 't', '1', '2' ]).drop 2).take
          ([ 's', 'e', 'c', 'r', 'e', 't', '1', '2' ].length - 4) =
        List.replicate ([ 's', 'e', 'c', 'r', 'e', 't', '1', '2' ].length - 4) '*') ∧
    maskPwd [ 'a', 'b' ] = [ '*', '*', '*' ] :=
  ⟨(C3_mask_password [ 's', 'e', 'c', 'r', 'e', 't', '1', '2' ]).1 (by decide),
   ((C3_mask_password [ 'a', 'b' ]).2 (by decide)).1⟩

/-! ## `get_env_int`: parsing lemmas and the int/str roundtrip -/

theorem isWsC_of_digit_false {c : Char} (h : isDigitC c = true) : isWsC c = false := by
  simp [isDigitC] at h
  simp [isWsC]
  omega

theorem dropWhile_eq_self_of_all {p : Char → Bool} :
    ∀ l : List Char, (∀ c ∈ l, p c = false) → l.dropWhile p = l := by
  intro l h
  cases l with
  | nil => rfl
  | cons c cs =>
    have hc := h c (by simp)
    simp [List.dropWhile_cons, hc]

theorem trimWs_eq_self {l : List Char} (h : ∀ c ∈ l, isWsC c = false) : trimWs l = l := by
  unfold trimWs
  rw [dropWhile_eq_self_of_all l h]
  rw [dropWhile_eq_self_of_all l.reverse (fun c hc => h c (List.mem_reverse.mp hc))]
  exact List.reverse_reverse l

theorem natDigits_ne_nil (n : Nat) : natDigits n ≠ [] := by
  rw [natDigits]
  split
  · simp
  · simp

theorem natDigits_all_digit : ∀ n : Nat, ∀ c ∈ natDigits n, isDigitC c = true := by
  intro n
  induction n using Nat.strong_induction_on with
  | _ n ih =>
    rw [natDigits]
    split
    · rename_i h
      intro c hc
      simp at hc
      subst hc
      interval_cases n <;> decide
    · rename_i h
      intro c hc
      rw [List.mem_append] at hc
      rcases hc with hc | hc
      · exact ih (n / 10) (Nat.div_lt_self (by omega) (by omega)) c hc
      · simp at hc
        subst hc
        obtain ⟨m, hm⟩ : ∃ m, n % 10 = m := ⟨_, rfl⟩
        have h10 : n % 10 < 10 := Nat.mod_lt _ (by omega)
        rw [hm]
        have hm10 : m < 10 := by omega
        interval_cases m <;> decide

theorem charOfNat_toNat_digit {m : Nat} (h : m < 10) : (Char.ofNat (48 + m)).toNat = 48 + m := by
  interval_cases m <;> decide

theorem natDigits_val : ∀ n : Nat,
    (natDigits n).foldl (fun a c => a * 10 + (c.toNat - 48)) 0 = n := by
  intro n
  induction n using Nat.strong_induction_on with
  | _ n ih =>
    rw [natDigits]
    split
    · rename_i h
      simp only [List.foldl_cons, List.foldl_nil]
      rw [charOfNat_toNat_digit h]
      omega
    · rename_i h
      rw [List.foldl_append]
      simp only [List.foldl_cons, List.foldl_nil]
      rw [ih (n / 10) (Nat.div_lt_self (by omega) (by omega))]
      rw [charOfNat_toNat_digit (Nat.mod_lt _ (by omega))]
      omega

theorem parseDigs_all_digit : ∀ (l : List Char) (a : Nat), (∀ c ∈ l, isDigitC c = true) →
    parseDigs a l = some (l.foldl (fun a c => a * 10 + (c.toNat - 48)) a) := by
  intro l
  induction l with
  | nil =>
    intro a _
    simp [parseDigs]
  | cons c cs ih =>
    intro a h
    have hc := h c (by simp)
    rw [show parseDigs a (c :: cs) = parseDigs (a * 10 + (c.toNat - 48)) cs by
      rw [parseDigs.eq_def]
      simp [hc]]
    rw [List.foldl_cons]
    exact ih _ (fun d hd => h d (by simp [hd]))

theorem parseNat_natDigits (n : Nat) : parseNat (natDigits n) = some n := by
  obtain ⟨c, rest, hcr⟩ : ∃ c rest, natDigits n = c :: rest := by
    cases h : natDigits n with
    | nil => exact absurd h (natDigits_ne_nil n)
    | cons c rest => exact ⟨c, rest, rfl⟩
  have hall := natDigits_all_digit n
  rw [hcr] at hall
  have hc : isDigitC c = true := hall c (by simp)
  rw [hcr]
  simp only [parseNat, hc, if_true]
  rw [parseDigs_all_digit rest _ (fun d hd => hall d (by simp [hd]))]
  have hv := natDigits_val n
  rw [hcr, List.foldl_cons] at hv
  simp only [Nat.zero_mul, Nat.zero_add] at hv
  rw [hv]

theorem pyInt_intRepr (d : Int) : pyIntOfString (intRepr d) = some d := by
  unfold pyIntOfString intRepr
  by_cases h : d < 0
  · simp only [h, if_true]
    have hall : ∀ c ∈ '-' :: natDigits (-d).toNat, isWsC c = false := by
      intro c hc
      rcases List.mem_cons.mp hc with hc | hc
      · subst hc
        decide
      · exact isWsC_of_digit_false (natDigits_all_digit _ c hc)
    show pyIntList ('-' :: natDigits (-d).toNat) = some d
    unfold pyIntList
    rw [trimWs_eq_self hall]
    simp only [parseNat_natDigits]
    simp
    omega
  · simp only [h, if_false]
    have hall : ∀ c ∈ natDigits d.toNat, isWsC c = false :=
      fun c hc => isWsC_of_digit_false (natDigits_all_digit _ c hc)
    obtain ⟨c, rest, hcr⟩ : ∃ c rest, natDigits d.toNat = c :: rest := by
      cases hx : natDigits d.toNat with
      | nil => exact absurd hx (natDigits_ne_nil _)
      | cons c rest => exact ⟨c, rest, rfl⟩
    have hdall := natDigits_all_digit d.toNat
    rw [hcr] at hdall
    have hc : isDigitC c = true := hdall c (by simp)
    have hcn : 48 ≤ c.toNat ∧ c.toNat ≤ 57 := by
      simpa [isDigitC] using hc
    have hcm : ¬ c = '-' := by
      intro he
      subst he
      simp at hcn
    have hcp : ¬ c = '+' := by
      intro he
      subst he
      simp at hcn
    show pyIntList (natDigits d.toNat) = some d
    unfold pyIntList
    rw [trimWs_eq_self hall, hcr]
    simp only [hcm, hcp, if_false]
    rw [← hcr, parseNat_natDigits]
    simp
    omega

/-- Claim C9: `get_env_int` is total: it returns the parsed value of the
variable when it parses as a Python integer, and the supplied default when
the variable is unset or its value does not parse (a caught
`ValueError`). -/
theorem C9_get_env_int_total :
    ∀ (env : String → Option String) (name : String) (default : Int),
      (env name = none → get_env_int env name default = default) ∧
      (∀ s v, env name = some s → pyIntOfString s = some v →
        get_env_int env name default = v) ∧
      (∀ s, env name = some s → pyIntOfString s = none →
        get_env_int env name default = default) := by
  intro env name default
  refine ⟨?_, ?_, ?_⟩
  · intro h
    unfold get_env_int
    rw [h]
    show (match pyIntOfString (intRepr default) with
      | some v => v
      | none => default) = default
    rw [pyInt_intRepr]
  · intro s v hs hv
    unfold get_env_int
    rw [hs]
    show (match pyIntOfString s with
      | some v => v
      | none => default) = v
    rw [hv]
  · intro s hs hv
    unfold get_env_int
    rw [hs]
    show (match pyIntOfString s with
      | some v => v
      | none => default) = default
    rw [hv]

/-- Witness for C9: unset variable gives the default, `" 25 "` parses to 25,
`"fast"` falls back to the default. -/
theorem C9_get_env_int_total_witness :
    get_env_int (fun _ => (none : Option String)) "POLL_SECONDS" 10 = 10 ∧
    get_env_int (fun _ => some " 25 ") "POLL_SECONDS" 10 = 25 ∧
    get_env_int (fun _ => some "fast") "POLL_SECONDS" 10 = 10 :=
  ⟨(C9_get_env_int_total (fun _ => none) "POLL_SECONDS" 10).1 rfl,
   (C9_get_env_int_total (fun _ => some " 25 ") "POLL_SECONDS" 10).2.1 " 25 " 25 rfl (by decide),
   (C9_get_env_int_total (fun _ => some "fast") "POLL_SECONDS" 10).2.2 "fast" rfl (by decide)⟩

/-! ## Domain choice, account creation, token exchange -/

theorem getD_mem_of_ne_nil {l : List String} (h : l ≠ []) (k : Nat) :
    l.getD (k % l.length) "" ∈ l := by
  have hl : 0 < l.length := List.length_pos.mpr h
  have hk : k % l.length < l.length := Nat.mod_lt _ hl
  rw [List.getD_eq_getElem?_getD, List.getElem?_eq_getElem hk]
  exact List.getElem_mem hk

theorem ne_empty_of_mem_list_domains {raw : List (Option String)} {x : String}
    (h : x ∈ list_domains raw) : x ≠ "" := by
  unfold list_domains at h
  rw [List.mem_filterMap] at h
  obtain ⟨d, _, hd⟩ := h
  match d with
  | none => simp at hd
  | some s =>
    by_cases hs : s = ""
    · simp [hs] at hd
    · simp [hs] at hd
      subst hd
      exact hs

/-- Claim C5: with a nonempty available-domain list (as produced by
`list_domains`), a desired domain absent from the list is never chosen — the
choice falls back to an element of the list — and a desired domain present
in the list is chosen. -/
theorem C5_domain_choice :
    ∀ (raw : List (Option String)) (wanted : String) (k : Nat),
      list_domains raw ≠ [] →
      ((wanted ∉ list_domains raw →
          chooseDomain wanted (list_domains raw) k ∈ list_domains raw ∧
          chooseDomain wanted (list_domains raw) k ≠ wanted) ∧
        (wanted ∈ list_domains raw → chooseDomain wanted (list_domains raw) k = wanted)) := by
  intro raw wanted k h
  constructor
  · intro hnot
    have hmem : (list_domains raw).getD (k % (list_domains raw).length) "" ∈ list_domains raw :=
      getD_mem_of_ne_nil h k
    have hch : chooseDomain wanted (list_domains raw) k =
        (list_domains raw).getD (k % (list_domains raw).length) "" := by
      unfold chooseDomain
      by_cases hw : wanted = ""
      · simp [hw]
      · simp [hw, hnot]
    rw [hch]
    exact ⟨hmem, fun he => hnot (he ▸ hmem)⟩
  · intro hin
    have hw : wanted ≠ "" := ne_empty_of_mem_list_domains hin
    unfold chooseDomain
    simp [hw, hin]

/-- Witness for C5: over the listing `["a.com", "b.com"]` (after dropping a
missing and an empty domain field), the absent `"c.com"` falls back to an
available domain, and the present `"a.com"` is chosen. -/
theorem C5_domain_choice_witness :
    (chooseDomain "c.com" (list_domains [some "a.com", none, some "", some "b.com"]) 3 ∈
        list_domains [some "a.com", none, some "", some "b.com"] ∧
      chooseDomain "c.com" (list_domains [some "a.com", none, some "", some "b.com"]) 3 ≠
        "c.com") ∧
    chooseDomain "a.com" (list_domains [some "a.com", none, some "", some "b.com"]) 5 =
      "a.com" :=
  ⟨(C5_domain_choice [some "a.com", none, some "", some "b.com"] "c.com" 3 (by decide)).1
      (by decide),
   (C5_domain_choice [some "a.com", none, some "", some "b.com"] "a.com" 5 (by decide)).2
      (by decide)⟩

/-- Claim C4: a failing account-creation request never changes the run's
outcome — it is the token exchange that decides it — and when it fails the
failure is only logged as a warning while execution continues to the token
exchange. -/
theorem C4_create_failure_nonfatal :
    ∀ (env : ProvisionEnv) (wanted : String) (e : HErr),
      ((provisionRun { env with createResp := Except.error e } wanted false).2 =
        (provisionRun { env with createResp := Except.ok () } wanted false).2) ∧
      (∀ raw, env.domainsResp = Except.ok raw → list_domains raw ≠ [] →
        env.createResp = Except.error e →
        LogEv.createFailedWarn e ∈ (provisionRun env wanted false).1 ∧
        (provisionRun env wanted false).2 = tokenOutcome env.tokenResp) := by
  intro env wanted e
  constructor
  · unfold provisionRun
    cases hd : env.domainsResp with
    | error e2 => simp
    | ok raw =>
      by_cases hraw : list_domains raw = []
      · simp [hraw]
      · cases ht : tokenOutcome env.tokenResp <;> simp [hraw, ht]
  · intro raw hdr hne hcr
    unfold provisionRun
    rw [hdr]
    cases ht : tokenOutcome env.tokenResp <;> simp [hne, hcr, ht]

/-- Witness for C4: with a one-domain listing, a failed creation (status
422) and a good token response, the warning is logged and the outcome is
the token exchange's. -/
theorem C4_create_failure_nonfatal_witness :
    LogEv.createFailedWarn ⟨422⟩ ∈
      (provisionRun ⟨Except.ok [some "a.com"], Except.error ⟨422⟩, Except.ok (some "tok")⟩
        "" false).1 ∧
    (provisionRun ⟨Except.ok [some "a.com"], Except.error ⟨422⟩, Except.ok (some "tok")⟩
        "" false).2 =
      tokenOutcome (Except.ok (some "tok")) :=
  (C4_create_failure_nonfatal
      ⟨Except.ok [some "a.com"], Except.error ⟨422⟩, Except.ok (some "tok")⟩ "" ⟨422⟩).2
    [some "a.com"] rfl (by decide) rfl

/-- Counterexample to claim C6: on a successful response whose `token` field
is present but empty, the request did not error and the field is not
absent, yet `get_token` raises (Python's `if not token` tests truthiness,
not presence). -/
theorem C6_counterexample :
    get_token (Except.ok (some "")) = Except.error TokenErr.missingToken ∧
      (some "" : Option String) ≠ none :=
  ⟨rfl, by simp⟩

/-- Claim C6 as amended: `get_token` raises if and only if the request
itself errors or the response's `token` field is absent or empty; on a
successful response with a nonempty token it returns that token. -/
theorem C6_get_token_amended :
    ∀ resp : Except HErr (Option String),
      ((∃ e, get_token resp = Except.error e) ↔
        (∃ h, resp = Except.error h) ∨ resp = Except.ok none ∨
          resp = Except.ok (some "")) ∧
      (∀ s, s ≠ "" → resp = Except.ok (some s) → get_token resp = Except.ok s) := by
  intro resp
  constructor
  · constructor
    · rintro ⟨e, he⟩
      match resp with
      | .error h => exact Or.inl ⟨h, rfl⟩
      | .ok none => exact Or.inr (Or.inl rfl)
      | .ok (some s) =>
        by_cases hs : s = ""
        · subst hs
          exact Or.inr (Or.inr rfl)
        · simp [get_token, hs] at he
    · rintro (⟨h2, hh⟩ | hh | hh) <;> rw [hh]
      · exact ⟨.http h2, rfl⟩
      · exact ⟨.missingToken, rfl⟩
      · exact ⟨.missingToken, rfl⟩
  · intro s hs hr
    rw [hr]
    simp [get_token, hs]

/-- Witness for C6 (amended): a response carrying the nonempty token
`"tok123"` yields it. -/
theorem C6_get_token_amended_witness :
    get_token (Except.ok (some "tok123")) = Except.ok "tok123" :=
  (C6_get_token_amended (Except.ok (some "tok123"))).2 "tok123" (by decide) rfl

/-! ## Poll-loop lemmas -/

theorem reportedIds_append (a b : List Ev) :
    reportedIds (a ++ b) = reportedIds a ++ reportedIds b := by
  simp [reportedIds]

theorem readIds_append (a b : List Ev) :
    readIds (a ++ b) = readIds a ++ readIds b := by
  simp [readIds]

theorem sleepDurations_append (a b : List Ev) :
    sleepDurations (a ++ b) = sleepDurations a ++ sleepDurations b := by
  simp [sleepDurations]

theorem otpEvents_ids (text intr : String) :
    reportedIds (otpEvents text intr) = [] ∧
    readIds (otpEvents text intr) = [] ∧
    sleepDurations (otpEvents text intr) = [] := by
  unfold otpEvents
  cases h1 : extract_otp text with
  | some c => simp [reportedIds, readIds, sleepDurations]
  | none =>
    cases h2 : extract_otp intr with
    | some c => simp [reportedIds, readIds, sleepDurations]
    | none => simp [reportedIds, readIds, sleepDurations]

theorem processMsg_ids (env : InboxEnv) (m : Msg) :
    reportedIds (processMsg env m) = [m.id.getD ""] ∧
    readIds (processMsg env m) = [m.id.getD ""] ∧
    sleepDurations (processMsg env m) = [] := by
  have ho := otpEvents_ids ((env.detail (m.id.getD "")).text.getD "") m.intro
  simp only [processMsg]
  refine ⟨?_, ?_, ?_⟩
  · rw [reportedIds_append, reportedIds_append, ho.1]
    by_cases hh : (env.detail (m.id.getD "")).html.getD "" = ""
    · rw [if_pos hh]
      simp [reportedIds]
    · rw [if_neg hh]
      simp [reportedIds]
  · rw [readIds_append, readIds_append, ho.2.1]
    by_cases hh : (env.detail (m.id.getD "")).html.getD "" = ""
    · rw [if_pos hh]
      simp [readIds]
    · rw [if_neg hh]
      simp [readIds]
  · rw [sleepDurations_append, sleepDurations_append, ho.2.2]
    by_cases hh : (env.detail (m.id.getD "")).html.getD "" = ""
    · rw [if_pos hh]
      simp [sleepDurations]
    · rw [if_neg hh]
      simp [sleepDurations]

theorem processNew_fst_ids (env : InboxEnv) :
    ∀ (ms : List Msg) (seen : List String),
      reportedIds (processNew env seen ms).1 = ms.map (fun m => m.id.getD "") ∧
      readIds (processNew env seen ms).1 = ms.map (fun m => m.id.getD "") ∧
      sleepDurations (processNew env seen ms).1 = [] := by
  intro ms
  induction ms with
  | nil =>
    intro seen
    simp [processNew, reportedIds, readIds, sleepDurations]
  | cons m ms ih =>
    intro seen
    have hm := processMsg_ids env m
    have hr := ih (m.id.getD "" :: seen)
    simp only [processNew, List.map_cons]
    refine ⟨?_, ?_, ?_⟩
    · rw [reportedIds_append, hm.1, hr.1]
      rfl
    · rw [readIds_append, hm.2.1, hr.2.1]
      rfl
    · rw [sleepDurations_append, hm.2.2, hr.2.2]
      rfl

theorem processNew_snd_mem (env : InboxEnv) :
    ∀ (ms : List Msg) (seen : List String) (x : String),
      (x ∈ (processNew env seen ms).2 ↔ x ∈ ms.map (fun m => m.id.getD "") ∨ x ∈ seen) := by
  intro ms
  induction ms with
  | nil =>
    intro seen x
    simp [processNew]
  | cons m ms ih =>
    intro seen x
    simp only [processNew]
    rw [ih (m.id.getD "" :: seen) x]
    simp only [List.map_cons, List.mem_cons]
    tauto

theorem newMsgPred_spec {seen : List String} {m : Msg} (h : newMsgPred seen m = true) :
    ∃ s, m.id = some s ∧ s ≠ "" ∧ s ∉ seen := by
  unfold newMsgPred at h
  match hm : m.id with
  | none =>
    rw [hm] at h
    simp at h
  | some s =>
    rw [hm] at h
    simp at h
    exact ⟨s, rfl, h.1, h.2⟩

theorem truthyIds_cons (m : Msg) (ms : List Msg) :
    truthyIds (m :: ms) = (match m.id with
      | none => truthyIds ms
      | some s => if s = "" then truthyIds ms else s :: truthyIds ms) := by
  unfold truthyIds
  rw [List.filterMap_cons]
  cases hm : m.id with
  | none => simp
  | some s =>
    by_cases hs : s = "" <;> simp [hs]

theorem filtered_ids_sublist (seen : List String) :
    ∀ msgs : List Msg,
      ((msgs.filter (newMsgPred seen)).map (fun m => m.id.getD "")).Sublist
        (truthyIds msgs) := by
  intro msgs
  induction msgs with
  | nil => simp [truthyIds]
  | cons m ms ih =>
    by_cases hp : newMsgPred seen m = true
    · obtain ⟨s, hs, hne, _⟩ := newMsgPred_spec hp
      rw [List.filter_cons_of_pos hp, truthyIds_cons]
      simp only [List.map_cons, hs]
      simp [hne]
      exact ih
    · rw [List.filter_cons_of_neg (by simpa using hp), truthyIds_cons]
      cases hm : m.id with
      | none => exact ih
      | some s =>
        by_cases hs : s = ""
        · simp [hs]
          exact ih
        · simp [hs]
          exact List.Sublist.cons _ ih

theorem filtered_not_seen (seen : List String) (msgs : List Msg) :
    ∀ x ∈ (msgs.filter (newMsgPred seen)).map (fun m => m.id.getD ""),
      x ∉ seen ∧ x ≠ "" := by
  intro x hx
  rw [List.mem_map] at hx
  obtain ⟨m, hm, hx⟩ := hx
  rw [List.mem_filter] at hm
  obtain ⟨s, hs, hne, hnotin⟩ := newMsgPred_spec hm.2
  subst hx
  rw [hs]
  simpa using ⟨hnotin, hne⟩

theorem pollIter_parts (env : InboxEnv) (secs : Nat) (seen : List String) (i : Nat)
    (hf : env.fetch i ≠ []) :
    (pollIter env secs seen i).1 =
      (processNew env seen ((env.fetch i).filter (newMsgPred seen))).1 ++
        [Ev.sleepEv secs] ∧
    (pollIter env secs seen i).2 =
      (processNew env seen ((env.fetch i).filter (newMsgPred seen))).2 := by
  simp [pollIter, hf]

theorem pollIter_summary (env : InboxEnv) (secs : Nat) (seen : List String) (i : Nat) :
    reportedIds (pollIter env secs seen i).1 =
      ((env.fetch i).filter (newMsgPred seen)).map (fun m => m.id.getD "") ∧
    (∀ x, x ∈ (pollIter env secs seen i).2 ↔
      x ∈ ((env.fetch i).filter (newMsgPred seen)).map (fun m => m.id.getD "") ∨
        x ∈ seen) := by
  by_cases hf : env.fetch i = []
  · simp [pollIter, hf, reportedIds]
  · have hp := pollIter_parts env secs seen i hf
    constructor
    · rw [hp.1, reportedIds_append, (processNew_fst_ids env _ _).1]
      simp [reportedIds]
    · intro x
      rw [hp.2, processNew_snd_mem]

theorem pollIter_read (env : InboxEnv) (secs : Nat) (seen : List String) (i : Nat) :
    readIds (pollIter env secs seen i).1 =
      ((env.fetch i).filter (newMsgPred seen)).map (fun m => m.id.getD "") := by
  by_cases hf : env.fetch i = []
  · simp [pollIter, hf, readIds]
  · rw [(pollIter_parts env secs seen i hf).1, readIds_append,
      (processNew_fst_ids env _ _).2.1]
    simp [readIds]

theorem pollIter_sleeps (env : InboxEnv) (secs : Nat) (seen : List String) (i : Nat) :
    sleepDurations (pollIter env secs seen i).1 = [secs] := by
  by_cases hf : env.fetch i = []
  · simp [pollIter, hf, sleepDurations]
  · rw [(pollIter_parts env secs seen i hf).1, sleepDurations_append,
      (processNew_fst_ids env _ _).2.2]
    simp [sleepDurations]

theorem runFrom_sleeps (env : InboxEnv) (secs : Nat) :
    ∀ (n i : Nat) (seen : List String),
      sleepDurations (runFrom env secs n i seen) = List.replicate n secs := by
  intro n
  induction n with
  | zero =>
    intro i seen
    simp [runFrom, sleepDurations]
  | succ n ih =>
    intro i seen
    simp only [runFrom]
    rw [sleepDurations_append, pollIter_sleeps, ih]
    simp [List.replicate_succ]

theorem runFrom_dedup (env : InboxEnv) (secs : Nat)
    (hyp : ∀ j, (truthyIds (env.fetch j)).Nodup) :
    ∀ (n i : Nat) (seen : List String),
      (reportedIds (runFrom env secs n i seen)).Nodup ∧
      ∀ x ∈ reportedIds (runFrom env secs n i seen), x ∉ seen := by
  intro n
  induction n with
  | zero =>
    intro i seen
    simp [runFrom, reportedIds]
  | succ n ih =>
    intro i seen
    have hsum := pollIter_summary env secs seen i
    have hih := ih (i + 1) ((pollIter env secs seen i).2)
    simp only [runFrom]
    rw [reportedIds_append, hsum.1]
    have hnodup : (((env.fetch i).filter (newMsgPred seen)).map
        (fun m => m.id.getD "")).Nodup :=
      (filtered_ids_sublist seen (env.fetch i)).nodup (hyp i)
    constructor
    · refine List.Nodup.append hnodup hih.1 ?_
      intro x hx hx'
      exact hih.2 x hx' ((hsum.2 x).mpr (Or.inl hx))
    · intro x hx
      rw [List.mem_append] at hx
      rcases hx with hx | hx
      · exact (filtered_not_seen seen (env.fetch i) x hx).1
      · intro hseen
        exact hih.2 x hx ((hsum.2 x).mpr (Or.inr hseen))

/-- Counterexample to claim C2: when one single poll's list contains the
same id twice, the new-message subset is computed against the seen set from
before the poll, so the id is reported twice in one run. -/
theorem C2_counterexample :
    ¬ (reportedIds (runPolls
        ⟨fun _ => [⟨some "a", ""⟩, ⟨some "a", ""⟩], fun _ => ⟨none, none⟩⟩ 1 1)).Nodup := by
  decide

/-- Claim C2 as amended: provided no single poll's message list contains the
same nonempty id twice, every id is reported at most once per run — in
particular an id returned again by later polls is filtered out by the seen
set. -/
theorem C2_dedup_amended :
    ∀ (env : InboxEnv) (secs maxPolls : Nat),
      (∀ j, (truthyIds (env.fetch j)).Nodup) →
      (reportedIds (runPolls env secs maxPolls)).Nodup := by
  intro env secs maxPolls hyp
  unfold runPolls
  exact (runFrom_dedup env secs hyp maxPolls 0 []).1

/-- Witness for C2 (amended): two polls both returning ids `a`, `b` report
each id once. -/
theorem C2_dedup_amended_witness :
    (reportedIds (runPolls
      ⟨fun _ => [⟨some "a", ""⟩, ⟨some "b", ""⟩], fun _ => ⟨none, none⟩⟩ 1 2)).Nodup :=
  C2_dedup_amended ⟨fun _ => [⟨some "a", ""⟩, ⟨some "b", ""⟩], fun _ => ⟨none, none⟩⟩ 1 2
    (fun j => by
      change (truthyIds [Msg.mk (some "a") "", Msg.mk (some "b") ""]).Nodup
      decide)

/-- Claim C7: per message, extraction runs on the body text first and the
intro second, the first non-`none` result is reported, and when both are
`none` a fallback body excerpt is printed instead of a code. -/
theorem C7_otp_order :
    ∀ text intr : String,
      (∀ c, extract_otp text = some c → otpEvents text intr = [Ev.otpFound c]) ∧
      (extract_otp text = none → ∀ c, extract_otp intr = some c →
        otpEvents text intr = [Ev.otpFound c]) ∧
      (extract_otp text = none → extract_otp intr = none →
        otpEvents text intr = [Ev.fallbackBody
          (if text = "" then "(no text body)" else text.take 300)]) := by
  intro text intr
  refine ⟨?_, ?_, ?_⟩
  · intro c hc
    unfold otpEvents
    rw [hc]
  · intro h1 c hc
    unfold otpEvents
    rw [h1, hc]
  · intro h1 h2
    unfold otpEvents
    rw [h1, h2]

/-- Witness for C7: a body code wins over the intro, the intro is used when
the body has none, and the excerpt is printed when both fail. -/
theorem C7_otp_order_witness :
    otpEvents "pin 1234 now" "x 9999 x" = [Ev.otpFound "1234"] ∧
    otpEvents "no code here" "try 56789" = [Ev.otpFound "56789"] ∧
    otpEvents "plain body" "nothing" = [Ev.fallbackBody
      (if ("plain body" : String) = "" then "(no text body)"
        else ("plain body" : String).take 300)] :=
  ⟨(C7_otp_order "pin 1234 now" "x 9999 x").1 "1234" (by decide),
   (C7_otp_order "no code here" "try 56789").2.1 (by decide) "56789" (by decide),
   (C7_otp_order "plain body" "nothing").2.2 (by decide) (by decide)⟩

/-- Claim C8: for every message stream the poll loop runs exactly the
configured number of iterations — no early exit — and each iteration ends
with a sleep of the fixed configured interval, whether or not new messages
were found. -/
theorem C8_poll_loop_sleeps :
    ∀ (env : InboxEnv) (secs maxPolls : Nat),
      sleepDurations (runPolls env secs maxPolls) = List.replicate maxPolls secs := by
  intro env secs maxPolls
  unfold runPolls
  exact runFrom_sleeps env secs maxPolls 0 []

theorem mem_reportedIds_of_mem {s : String} {evs : List Ev} (h : Ev.newMsg s ∈ evs) :
    s ∈ reportedIds evs := by
  unfold reportedIds
  rw [List.mem_filterMap]
  exact ⟨Ev.newMsg s, h, rfl⟩

theorem mem_readIds_of_mem {s : String} {evs : List Ev} (h : Ev.readBody s ∈ evs) :
    s ∈ readIds evs := by
  unfold readIds
  rw [List.mem_filterMap]
  exact ⟨Ev.readBody s, h, rfl⟩

theorem id_of_mem_filtered_map {seen : List String} {msgs : List Msg} {s : String}
    (h : s ∈ (msgs.filter (newMsgPred seen)).map (fun m => m.id.getD "")) :
    s ≠ "" ∧ ∃ m, m ∈ msgs ∧ m.id = some s := by
  rw [List.mem_map] at h
  obtain ⟨m, hm, hx⟩ := h
  rw [List.mem_filter] at hm
  obtain ⟨t, ht, hne, _⟩ := newMsgPred_spec hm.2
  subst hx
  rw [ht]
  exact ⟨by simpa using hne, m, hm.1, by simp [ht]⟩

/-- Claim C10: in every poll, a list entry whose id field is missing or
empty is excluded from the new-message subset; no printed or body-fetched
id is empty (every such id is the nonempty id of a fetched entry), and the
empty id never enters the seen set. -/
theorem C10_bad_id_excluded :
    ∀ (env : InboxEnv) (secs : Nat) (seen : List String) (i : Nat),
      (∀ m, m ∈ env.fetch i → (m.id = none ∨ m.id = some "") →
        m ∉ (env.fetch i).filter (newMsgPred seen)) ∧
      ("" ∉ seen → "" ∉ (pollIter env secs seen i).2) ∧
      (∀ s, Ev.newMsg s ∈ (pollIter env secs seen i).1 →
        s ≠ "" ∧ ∃ m, m ∈ env.fetch i ∧ m.id = some s) ∧
      (∀ s, Ev.readBody s ∈ (pollIter env secs seen i).1 →
        s ≠ "" ∧ ∃ m, m ∈ env.fetch i ∧ m.id = some s) := by
  intro env secs seen i
  have hsum := pollIter_summary env secs seen i
  refine ⟨?_, ?_, ?_, ?_⟩
  · intro m _ hbad hmem
    rw [List.mem_filter] at hmem
    obtain ⟨t, ht, hne, _⟩ := newMsgPred_spec hmem.2
    rcases hbad with hb | hb <;> rw [hb] at ht
    · exact Option.noConfusion ht
    · exact hne (Option.some.injEq _ _ ▸ ht).symm
  · intro h0 hmem
    rcases (hsum.2 "").mp hmem with h | h
    · exact (filtered_not_seen seen (env.fetch i) "" h).2 rfl
    · exact h0 h
  · intro s hs
    have := mem_reportedIds_of_mem hs
    rw [hsum.1] at this
    exact id_of_mem_filtered_map this
  · intro s hs
    have := mem_readIds_of_mem hs
    rw [pollIter_read] at this
    exact id_of_mem_filtered_map this

/-- Witness for C10: an entry with a missing id is excluded from the
new-message subset, and the empty id never enters the seen set. -/
theorem C10_bad_id_excluded_witness :
    Msg.mk none "hi" ∉
      ((InboxEnv.mk
          (fun _ => [Msg.mk none "hi", Msg.mk (some "") "x", Msg.mk (some "a") "y"])
          (fun _ => Detail.mk none none)).fetch 0).filter (newMsgPred []) ∧
    "" ∉ (pollIter (InboxEnv.mk
        (fun _ => [Msg.mk none "hi", Msg.mk (some "") "x", Msg.mk (some "a") "y"])
        (fun _ => Detail.mk none none)) 1 [] 0).2 :=
  ⟨(C10_bad_id_excluded (InboxEnv.mk
        (fun _ => [Msg.mk none "hi", Msg.mk (some "") "x", Msg.mk (some "a") "y"])
        (fun _ => Detail.mk none none)) 1 [] 0).1
      (Msg.mk none "hi") (by decide) (Or.inl rfl),
   (C10_bad_id_excluded (InboxEnv.mk
        (fun _ => [Msg.mk none "hi", Msg.mk (some "") "x", Msg.mk (some "a") "y"])
        (fun _ => Detail.mk none none)) 1 [] 0).2.1 (by decide)⟩

end TempMailX
